import Mathlib

/-!
Verification of `scripts/generate_semantic_view.py`.

The Python source is embedded shallowly: every pure computation of the
script (SQL column extraction, sidecar-YAML description loading, semantic
view rendering, version resolution, and the write decision of
`process_semantic_directory`) is translated into an executable Lean
definition.  Filesystem state is modelled as an association list from file
names to contents; the OpenAI call (`classify_columns_with_gpt`) is an
external input and enters the model only through its result type
`Classification`.

String conventions: Python `str.lower` / `str.upper` / `str.strip` and the
regex classes `\s`, `\d` are modelled at ASCII level (`lowerC`, `upperC`,
`pyIsSpace`, `Char.isDigit`), which is exact for ASCII text.  A single
quote character is produced via `Char.ofNat 39`.
-/

/-! ## Python string primitives -/

/-- Python `\s` (ASCII): space, tab, newline, carriage return, vertical tab,
form feed. -/
def pyIsSpace (c : Char) : Bool :=
  c == ' ' || c == '\t' || c == '\n' || c == '\r' || c == '\x0b' || c == '\x0c'

/-- ASCII model of Python `str.lower` on a single character. -/
def lowerC (c : Char) : Char :=
  if 65 ≤ c.toNat ∧ c.toNat ≤ 90 then Char.ofNat (c.toNat + 32) else c

/-- ASCII model of Python `str.upper` on a single character. -/
def upperC (c : Char) : Char :=
  if 97 ≤ c.toNat ∧ c.toNat ≤ 122 then Char.ofNat (c.toNat - 32) else c

/-- Python `str.lower` on a character list. -/
def pyLowerL (l : List Char) : List Char := l.map lowerC

/-- Python `str.lower` on a string. -/
def pyLowerS (s : String) : String := String.mk (pyLowerL s.data)

/-- Python `str.upper` on a string. -/
def pyUpperS (s : String) : String := String.mk (s.data.map upperC)

/-- Python `str.strip()` on a character list: drop whitespace from both
ends. -/
def pyStripL (l : List Char) : List Char :=
  ((l.dropWhile pyIsSpace).reverse.dropWhile pyIsSpace).reverse

/-- Python `str.strip()` on a string. -/
def pyStripS (s : String) : String := String.mk (pyStripL s.data)

/-- Python substring test `needle in hay` (for a nonempty needle). -/
def pyContains (hay needle : List Char) : Bool :=
  match hay with
  | [] => needle.isEmpty
  | _ :: rest => needle.isPrefixOf hay || pyContains rest needle

/-- Fueled worker for Python `str.split(sep)` with an explicit separator:
every occurrence of `sep` (scanned left to right, non-overlapping) ends a
piece; empty pieces are kept.  The fuel only needs to dominate the input
length; each step consumes at least one input character. -/
def pySplitF (sep : List Char) : Nat → List Char → List (List Char)
  | _, [] => [[]]
  | 0, l => [l]
  | fuel + 1, c :: cs =>
    if sep.isPrefixOf (c :: cs) then
      [] :: pySplitF sep fuel ((c :: cs).drop sep.length)
    else
      match pySplitF sep fuel cs with
      | [] => [[c]]
      | p :: ps => (c :: p) :: ps

/-- Python `str.split(sep)` on character lists (nonempty `sep`). -/
def pySplit (sep l : List Char) : List (List Char) := pySplitF sep l.length l

/-- The single quote character, code 39. -/
def sqChar : Char := Char.ofNat 39

/-- The single quote as a one-character string. -/
def sqS : String := String.singleton sqChar

/-- The two replace calls of the script: remove every double-quote and
single-quote character. -/
def removeQuotesL (l : List Char) : List Char :=
  l.filter (fun c => !(c == '"' || c == sqChar))

/-- Decimal digits of a natural number (fueled; the fuel dominates the
digit count). -/
def natReprAux : Nat → Nat → List Char
  | 0, _ => []
  | fuel + 1, n =>
    if n < 10 then [Char.ofNat (48 + n)]
    else natReprAux fuel (n / 10) ++ [Char.ofNat (48 + n % 10)]

/-- Python `str` on a non-negative integer (decimal rendering). -/
def natRepr (n : Nat) : String := String.mk (natReprAux (n + 1) n)

/-- Python str.join with the two-character comma-space separator. -/
def commaJoin : List String → String
  | [] => ""
  | [x] => x
  | x :: rest => x ++ ", " ++ commaJoin rest

/-- Python str.join with the newline separator. -/
def joinNL : List String → String
  | [] => ""
  | [x] => x
  | x :: rest => x ++ "\n" ++ joinNL rest

/-! ## The final-SELECT regex of `parse_sql_file`

The script runs
re.findall with the pattern select\s+(.*?)\s+from\s+.*?(?:left\s+join|inner\s+join|$)
under re.IGNORECASE and re.DOTALL.  The pattern is fixed, so instead of
a generic regex engine we embed a backtracking matcher specialised to it,
with the lazy/greedy ordering of the Python engine made explicit. -/

/-- Case-insensitive literal: consumes `lit` (given lower-case) from the
front of the input, comparing lowered characters. -/
def litCI : List Char → List Char → Option (List Char)
  | [], cs => some cs
  | _ :: _, [] => none
  | l :: ls, c :: cs => if lowerC c == l then litCI ls cs else none

/-- Greedy `\s+` followed by a continuation, with backtracking: longer
whitespace runs are preferred, as under the greedy plus of the Python engine. -/
def plusSpaces {α : Type} (cont : List Char → Option α) : List Char → Option α
  | [] => none
  | c :: cs =>
    if pyIsSpace c then
      match plusSpaces cont cs with
      | some r => some r
      | none => cont cs
    else none

/-- The alternation `left\s+join|inner\s+join` (first alternative
preferred). -/
def matchAlt (cs : List Char) : Option (List Char) :=
  match (litCI "left".data cs).bind (plusSpaces (litCI "join".data)) with
  | some r => some r
  | none => (litCI "inner".data cs).bind (plusSpaces (litCI "join".data))

/-- Python `$` without `re.MULTILINE`: end of input, or just before a final
newline. -/
def atDollar (cs : List Char) : Bool := cs.isEmpty || cs == ['\n']

/-- Lazy `.*?(?:left\s+join|inner\s+join|$)`: scan forward, preferring the
earliest position where the alternation (or `$`) matches; returns the rest
of the input after the match end. -/
def tailScan : List Char → Option (List Char)
  | [] =>
    match matchAlt [] with
    | some r => some r
    | none => if atDollar [] then some [] else none
  | c :: cs' =>
    match matchAlt (c :: cs') with
    | some r => some r
    | none => if atDollar (c :: cs') then some (c :: cs') else tailScan cs'

/-- After the captured group: `\s+from\s+` followed by the lazy tail. -/
def fromCont (cs : List Char) : Option (List Char) :=
  plusSpaces (fun cs2 => (litCI "from".data cs2).bind (plusSpaces tailScan)) cs

/-- Lazy group scan `(.*?)\s+from\s+…`: try the shortest capture first;
`acc` holds the reversed captured characters. -/
def fromScan : List Char → List Char → Option (String × List Char)
  | acc, [] =>
    match fromCont [] with
    | some rest => some (String.mk acc.reverse, rest)
    | none => none
  | acc, c :: cs' =>
    match fromCont (c :: cs') with
    | some rest => some (String.mk acc.reverse, rest)
    | none => fromScan (c :: acc) cs'

/-- Try to match the whole pattern anchored at the start of `cs`; on
success return the captured group and the input remaining after the match
end. -/
def matchAt (cs : List Char) : Option (String × List Char) :=
  (litCI "select".data cs).bind (plusSpaces (fromScan []))

/-- `re.findall` scan: try each start position left to right; after a
match, continue after its end.  Fuel dominates the input length (every
step consumes at least one character). -/
def findallAux : Nat → List Char → List String
  | 0, _ => []
  | fuel + 1, cs =>
    match matchAt cs with
    | some (g, rest) => g :: findallAux fuel rest
    | none =>
      match cs with
      | [] => []
      | _ :: cs' => findallAux fuel cs'

/-- All captures of the final-SELECT pattern over `content`. -/
def findall (content : String) : List String :=
  findallAux (content.data.length + 1) content.data

/-! ## `parse_sql_file`: per-item column-name extraction -/

/-- The four-character alias separator: space, a, s, space. -/
def asSep : List Char := " as ".data

/-- The alias test of `parse_sql_file`: the lowered, stripped projection
item contains the alias separator. -/
def hasAsL (item : List Char) : Bool :=
  pyContains (pyLowerL (pyStripL item)) asSep

/-- The body of the per-item loop of `parse_sql_file`: strip the item; if
it contains the alias separator (case-insensitively) take the piece after
the last occurrence of the separator in the lowered item, else take the piece after the
last `.`; strip again and remove quote characters. -/
def itemNameL (item : List Char) : List Char :=
  let line := pyStripL item
  let col :=
    if pyContains (pyLowerL line) asSep then
      pyStripL ((pySplit asSep (pyLowerL line)).getLastD [])
    else
      pyStripL ((pySplit ".".data line).getLastD [])
  removeQuotesL col

/-- String version of `itemNameL`. -/
def itemName (item : String) : String := String.mk (itemNameL item.data)

/-- The filter of `parse_sql_file`: keep a name iff it is nonempty and
does not start with the two-dash comment marker. -/
def keepCol (c : String) : Bool :=
  !(c == "") && !(List.isPrefixOf "--".data c.data)

/-- Column extraction from one projection list (the captured group of the
final SELECT): split on commas, extract the name of each item, keep nonempty
names not starting with `--`. -/
def colsOfSelect (sel : String) : List String :=
  ((pySplit ",".data sel.data).map (fun it => String.mk (itemNameL it))).filter keepCol

/-- The column list of `parse_sql_file`: the captured group of the last match of
the final-SELECT pattern, or `[]` when there is no match. -/
def extractColumns (content : String) : List String :=
  match (findall content).getLast? with
  | none => []
  | some sel => colsOfSelect sel

/-- `parse_sql_file` returns the column list together with the raw file
content. -/
def parse_sql_file (content : String) : List String × String :=
  (extractColumns content, content)

/-! ## `parse_model_yml`: sidecar descriptor loading

The YAML document is modelled post-parse: `none` stands for a missing or
falsy document (empty file), a missing `models` / `columns` key is an
`Option`, and the two column.get calls (name, description) are
`Option String` with default `""`. -/

/-- One entry of the `columns` list of a model in the sidecar file. -/
structure YmlColumn where
  name : Option String
  description : Option String
deriving DecidableEq

/-- One entry of the top-level `models` list. -/
structure YmlModel where
  columns : Option (List YmlColumn)
deriving DecidableEq

/-- The parsed sidecar document (a mapping that may carry a `models`
key). -/
structure YmlConfig where
  models : Option (List YmlModel)
deriving DecidableEq

/-- Python dict assignment `d[k] = v` on an insertion-ordered association
list: overwrite in place when the key exists, append otherwise. -/
def dictInsert (d : List (String × String)) (k v : String) : List (String × String) :=
  if d.any (fun p => p.1 == k) then
    d.map (fun p => if p.1 == k then (k, v) else p)
  else d ++ [(k, v)]

/-- `parse_model_yml`: an absent file or an absent/falsy document yields
`[]`; otherwise collect `{name.lower(): description}` for every column of
every model where both the name and the description are nonempty. -/
def parse_model_yml (pathExists : Bool) (config : Option YmlConfig) :
    List (String × String) :=
  if pathExists then
    match config with
    | none => []
    | some cfg =>
      match cfg.models with
      | none => []
      | some models =>
        models.foldl
          (fun acc m =>
            match m.columns with
            | none => acc
            | some cols =>
              cols.foldl
                (fun acc2 column =>
                  let col_name := pyLowerS (column.name.getD "")
                  let description := column.description.getD ""
                  if col_name ≠ "" ∧ description ≠ "" then
                    dictInsert acc2 col_name description
                  else acc2)
                acc)
          []
  else []

/-! ## `generate_semantic_view_sql`: rendering

The GPT classification result is modelled by `Classification`; the two
`dict.get` calls with defaults become `Option.getD`. -/

/-- Per-column classification data: the type field (mandatory in the
script) and the comment field with default empty string, the empty string
also being the falsy case of the DIMENSIONS loop. -/
structure ColumnInfo where
  kind : String
  comment : String
deriving DecidableEq

/-- The JSON object returned by `classify_columns_with_gpt`:
classification.get of primary_keys with default empty list, and
classification.get of columns with default empty mapping, the latter an
insertion-ordered mapping. -/
structure Classification where
  primary_keys : Option (List String)
  columns : Option (List (String × ColumnInfo))
deriving DecidableEq

/-- The fixed config block (source lines 136-140). -/
def configParts : List String :=
  ["\x7b\x7b config(",
   "  materialized = " ++ sqS ++ "semantic_view" ++ sqS ++ ",",
   "  copy_grants = true",
   ") \x7d\x7d",
   ""]

/-- The model-AS-ref line of the TABLES block. -/
def modelAsLine (ref_model_name : String) : String :=
  "  model AS \x7b\x7b ref(" ++ (sqS ++ (ref_model_name ++ (sqS ++ ") \x7d\x7d")))

/-- The PRIMARY KEY clause line for a (nonempty) joined key list. -/
def pkLine (pk_str : String) : String :=
  "    PRIMARY KEY (" ++ (pk_str ++ ")")

/-- A column reference line `  model.<COL> AS <COL>` (used by both the
FACTS and the DIMENSIONS loop). -/
def colRefLine (col : String) : String :=
  "  model." ++ (pyUpperS col ++ (" AS " ++ pyUpperS col))

/-- A quoted COMMENT line with its separating comma. -/
def commentLine (comment comma : String) : String :=
  "    COMMENT = " ++ (sqS ++ (comment ++ (sqS ++ comma)))

/-- The FACTS loop body (source lines 155-159): every entry but the last
carries a trailing comma on its COMMENT line; the COMMENT line is emitted
even for an empty comment. -/
def factLines : List (String × ColumnInfo) → List String
  | [] => []
  | [(col, info)] => [colRefLine col, commentLine info.comment ""]
  | (col, info) :: rest =>
    colRefLine col :: commentLine info.comment "," :: factLines rest

/-- The DIMENSIONS loop body (source lines 167-174): an entry with an empty
comment omits the COMMENT line and glues the separating comma onto the
column reference line. -/
def dimLines : List (String × ColumnInfo) → List String
  | [] => []
  | [(col, info)] =>
    if info.comment = "" then [colRefLine col]
    else [colRefLine col, commentLine info.comment ""]
  | (col, info) :: rest =>
    (if info.comment = "" then [colRefLine col ++ ","]
     else [colRefLine col, commentLine info.comment ","]) ++ dimLines rest

/-- The final overall COMMENT line (source line 178). -/
def finalComment (model_name : String) : String :=
  "COMMENT = " ++ (sqS ++ ("Semantic view for " ++ (model_name ++
    (" model. Enables natural language queries via Cortex Analyst" ++ sqS))))

/-- The FACT-typed entries of the column mapping, in order. -/
def factsOf (cls : Classification) : List (String × ColumnInfo) :=
  (cls.columns.getD []).filter (fun p => p.2.kind == "FACT")

/-- The DIMENSION-typed entries of the column mapping, in order. -/
def dimsOf (cls : Classification) : List (String × ColumnInfo) :=
  (cls.columns.getD []).filter (fun p => p.2.kind == "DIMENSION")

/-- The upper-cased, comma-joined primary-key list
the comma-space join of the upper-cased primary keys. -/
def pkStrOf (cls : Classification) : String :=
  commaJoin ((cls.primary_keys.getD []).map pyUpperS)

/-- `generate_semantic_view_sql` as the list `sql_parts` it builds (the
artifact is their newline join).  Section order and conditional emission
follow source lines 133-178. -/
def generate_semantic_view_parts (model_name : String) (cls : Classification)
    (ref_model_name : String) : List String :=
  let facts := factsOf cls
  let dims := dimsOf cls
  configParts
    ++ ["TABLES (", modelAsLine ref_model_name]
    ++ (if pkStrOf cls = "" then [] else [pkLine (pkStrOf cls)])
    ++ [")", ""]
    ++ (if facts = [] then [] else ["FACTS ("] ++ factLines facts ++ [")", ""])
    ++ (if dims = [] then [] else ["DIMENSIONS ("] ++ dimLines dims ++ [")"])
    ++ [finalComment model_name]

/-- The rendered artifact: the newline join of sql_parts. -/
def generate_semantic_view_sql (model_name : String) (cls : Classification)
    (ref_model_name : String) : String :=
  joinNL (generate_semantic_view_parts model_name cls ref_model_name)

/-! ## `get_next_version` and the write step

The output directory is an association list from file name to content, in
creation order. -/

/-- Membership test of the glob pattern built from base_name followed by
_semantic_view, then star (anything), then the fixed .sql suffix. -/
def matchesPattern (base name : String) : Bool :=
  let pre := (base ++ "_semantic_view").data
  pre.isPrefixOf name.data && List.isSuffixOf ".sql".data (name.data.drop pre.length)

/-- Digits to the number they denote (`int` of a digit string). -/
def digitsToNat (ds : List Char) : Nat :=
  ds.foldl (fun a c => a * 10 + (c.toNat - 48)) 0

/-- re.search with the anchored pattern _v(\d+)\.sql at the end of the
name: succeeds exactly when the name ends in _v, one or more digits, and
.sql, returning the value of the digits. -/
def versionOf (name : String) : Option Nat :=
  if List.isSuffixOf ".sql".data name.data then
    let stem := name.data.take (name.data.length - 4)
    let ds := (stem.reverse.takeWhile Char.isDigit).reverse
    if ds = [] then none
    else if List.isSuffixOf "_v".data (stem.take (stem.length - ds.length)) then
      some (digitsToNat ds)
    else none
  else none

/-- `get_next_version`: over the file names of the output directory, keep
those matching the glob; a file with no `_v<N>` suffix counts as version 1;
the result is one plus the maximum, or 1 when nothing matches. -/
def get_next_version (files : List String) (base_name : String) : Nat :=
  let existing_files := files.filter (matchesPattern base_name)
  if existing_files.isEmpty then 1
  else
    let versions := existing_files.map (fun f => (versionOf f).getD 1)
    versions.foldl max 0 + 1

/-- Writing with open in mode w: replace the content in place when the
name exists, append the file otherwise. -/
def setFile (dir : List (String × String)) (name content : String) :
    List (String × String) :=
  if dir.any (fun p => p.1 == name) then
    dir.map (fun p => if p.1 == name then (name, content) else p)
  else dir ++ [(name, content)]

/-- Reading a file that may not exist. -/
def getFile? (dir : List (String × String)) (name : String) : Option String :=
  (dir.find? (fun p => p.1 == name)).map (fun p => p.2)

/-- Outcome of the version-resolve-and-write step: the directory
afterwards, the name of the file written (if any), and whether the
"already up to date" diagnostic was printed. -/
structure WriteOutcome where
  dir : List (String × String)
  written : Option String
  upToDate : Bool
deriving DecidableEq

/-- The version-resolve-and-write step of `process_semantic_directory`
(source lines 246-270) for one model: compute the next version, pick the
output name, and either write unconditionally (version > 1) or compare
stripped contents first (version 1). -/
def writeStep (dir : List (String × String)) (model_name rendered : String) :
    WriteOutcome :=
  let version := get_next_version (dir.map (fun p => p.1)) model_name
  let output_file :=
    if version = 1 then model_name ++ "_semantic_view.sql"
    else model_name ++ "_semantic_view_v" ++ natRepr version ++ ".sql"
  if version > 1 then
    ⟨setFile dir output_file rendered, some output_file, false⟩
  else
    match getFile? dir output_file with
    | some existing_content =>
      if pyStripS existing_content = pyStripS rendered then ⟨dir, none, true⟩
      else ⟨setFile dir output_file rendered, some output_file, false⟩
    | none => ⟨setFile dir output_file rendered, some output_file, false⟩

/-! ## Helper lemmas -/

theorem data_append (a b : String) : (a ++ b).data = a.data ++ b.data := rfl

theorem isPrefixOf_append_left {α} [DecidableEq α] :
    ∀ (p q x : List α), p.length ≤ q.length →
      List.isPrefixOf p (q ++ x) = List.isPrefixOf p q
  | [], _, _, _ => by simp [List.isPrefixOf]
  | _ :: _, [], _, h => by simp at h
  | a :: p', b :: q', x, h => by
    simp only [List.cons_append, List.isPrefixOf, List.append_eq]
    rw [isPrefixOf_append_left p' q' x (by simpa using h)]

theorem isPrefixOf_append_self {α} [DecidableEq α] :
    ∀ (p x : List α), List.isPrefixOf p (p ++ x) = true
  | [], _ => by simp [List.isPrefixOf]
  | a :: p', x => by
    simp only [List.cons_append, List.isPrefixOf, beq_self_eq_true, Bool.true_and]
    exact isPrefixOf_append_self p' x

/-- If `p` heads `q ++ x` and `q` is no longer than `p`, then `q` heads
`p`. -/
theorem isPrefixOf_of_append_long {α} [DecidableEq α] :
    ∀ (p q x : List α), List.isPrefixOf p (q ++ x) = true → q.length ≤ p.length →
      List.isPrefixOf q p = true
  | _, [], _, _, _ => by simp [List.isPrefixOf]
  | [], _ :: _, _, _, hlen => by simp at hlen
  | a :: p', b :: q', x, h, hlen => by
    simp only [List.cons_append, List.isPrefixOf, List.append_eq, Bool.and_eq_true,
      beq_iff_eq] at h ⊢
    exact ⟨h.1.symm, isPrefixOf_of_append_long p' q' x h.2 (by simpa using hlen)⟩

/-- A string starting with `a` differs from a string `t` that `a` does not
head. -/
theorem append_ne_of_not_pre (a b t : String)
    (h : List.isPrefixOf a.data t.data = false) : a ++ b ≠ t := by
  intro heq
  have hd : t.data = a.data ++ b.data := by rw [← heq]; rfl
  rw [hd, isPrefixOf_append_self] at h
  simp at h

theorem lowerC_idem (c : Char) : lowerC (lowerC c) = lowerC c := by
  unfold lowerC
  by_cases h : 65 ≤ c.toNat ∧ c.toNat ≤ 90
  · simp only [if_pos h]
    obtain ⟨h1, h2⟩ := h
    generalize c.toNat = n at h1 h2
    interval_cases n <;> decide
  · simp only [if_neg h]

theorem upperC_idem (c : Char) : upperC (upperC c) = upperC c := by
  unfold upperC
  by_cases h : 97 ≤ c.toNat ∧ c.toNat ≤ 122
  · simp only [if_pos h]
    obtain ⟨h1, h2⟩ := h
    generalize c.toNat = n at h1 h2
    interval_cases n <;> decide
  · simp only [if_neg h]

/-- Upper-casing a string is idempotent: its output contains no character
changed by a second upper-casing (no lower-case ASCII letter remains). -/
theorem pyUpperS_idem (s : String) : pyUpperS (pyUpperS s) = pyUpperS s := by
  unfold pyUpperS
  simp only [List.map_map]
  congr 1
  exact List.map_congr_left (fun c _ => upperC_idem c)

theorem le_foldl_max_init : ∀ (l : List Nat) (a : Nat), a ≤ l.foldl max a
  | [], _ => le_refl _
  | x :: xs, a => le_trans (le_max_left a x) (le_foldl_max_init xs (max a x))

theorem mem_le_foldl_max {x : Nat} :
    ∀ (l : List Nat) (a : Nat), x ∈ l → x ≤ l.foldl max a
  | [], _, h => by simp at h
  | y :: ys, a, h => by
    rcases List.mem_cons.mp h with h' | h'
    · subst h'
      exact le_trans (le_max_right a x) (le_foldl_max_init ys (max a x))
    · exact mem_le_foldl_max ys (max a y) h'

/-- Every piece produced by the split worker is a subset of its input. -/
theorem pySplitF_subset (sep : List Char) :
    ∀ (fuel : Nat) (l p : List Char), p ∈ pySplitF sep fuel l → p ⊆ l := by
  intro fuel
  induction fuel with
  | zero =>
    intro l p hp
    cases l with
    | nil => simp [pySplitF] at hp; simp [hp]
    | cons c cs => simp [pySplitF] at hp; simp [hp]
  | succ n ih =>
    intro l p hp
    cases l with
    | nil => simp [pySplitF] at hp; simp [hp]
    | cons c cs =>
      by_cases hpre : sep.isPrefixOf (c :: cs)
      · rw [show pySplitF sep (n + 1) (c :: cs)
            = [] :: pySplitF sep n ((c :: cs).drop sep.length) by
            simp [pySplitF, hpre]] at hp
        rcases List.mem_cons.mp hp with h' | h'
        · simp [h']
        · exact (ih _ p h').trans (List.drop_subset _ _)
      · rw [show pySplitF sep (n + 1) (c :: cs)
            = match pySplitF sep n cs with
              | [] => [[c]]
              | p :: ps => (c :: p) :: ps by simp [pySplitF, hpre]] at hp
        cases hrec : pySplitF sep n cs with
        | nil =>
          rw [hrec] at hp
          simp at hp
          simp [hp]
        | cons q qs =>
          rw [hrec] at hp
          rcases List.mem_cons.mp hp with h' | h'
          · subst h'
            have hq : q ⊆ cs := ih cs q (by rw [hrec]; exact List.mem_cons_self q qs)
            exact List.cons_subset_cons c hq
          · have := ih cs p (by rw [hrec]; exact List.mem_cons_of_mem q h')
            exact this.trans (List.subset_cons_self c cs)

/-- The split worker never returns the empty list of pieces. -/
theorem pySplitF_ne_nil (sep : List Char) :
    ∀ (fuel : Nat) (l : List Char), pySplitF sep fuel l ≠ [] := by
  intro fuel l
  cases fuel with
  | zero => cases l <;> simp [pySplitF]
  | succ n =>
    cases l with
    | nil => simp [pySplitF]
    | cons c cs =>
      by_cases hpre : sep.isPrefixOf (c :: cs)
      · simp [pySplitF, hpre]
      · simp only [pySplitF, if_neg hpre]
        cases pySplitF sep n cs <;> simp

theorem getLastD_mem {α} : ∀ (l : List α) (d : α), l ≠ [] → l.getLastD d ∈ l
  | [], _, h => absurd rfl h
  | [x], _, _ => by simp
  | x :: y :: ys, d, _ => by
    rw [List.getLastD_cons]
    exact List.mem_cons_of_mem x (getLastD_mem (y :: ys) d (by simp))

theorem pyStripL_subset (l : List Char) : pyStripL l ⊆ l := by
  unfold pyStripL
  intro c hc
  rw [List.mem_reverse] at hc
  have h1 := List.dropWhile_subset pyIsSpace hc
  rw [List.mem_reverse] at h1
  exact List.dropWhile_subset pyIsSpace h1

theorem removeQuotesL_subset (l : List Char) : removeQuotesL l ⊆ l :=
  List.filter_subset' l

/-- Characters of a lowered list are fixed points of `lowerC`. -/
theorem mem_pyLowerL_fixed {c : Char} {l : List Char} (h : c ∈ pyLowerL l) :
    lowerC c = c := by
  unfold pyLowerL at h
  obtain ⟨a, _, rfl⟩ := List.mem_map.mp h
  exact lowerC_idem a

/-- Lowering fixes a list all of whose characters it fixes. -/
theorem pyLowerL_eq_self {l : List Char} (h : ∀ c ∈ l, lowerC c = c) :
    pyLowerL l = l := by
  unfold pyLowerL
  rw [List.map_congr_left h]
  exact List.map_id' l

/-- On an aliased projection item the extracted name is drawn from the
lowered item, hence lower-casing fixes it. -/
theorem itemNameL_as_lower (item : List Char) (h : hasAsL item = true) :
    pyLowerL (itemNameL item) = itemNameL item := by
  unfold hasAsL at h
  have heq : itemNameL item
      = removeQuotesL (pyStripL
          ((pySplit asSep (pyLowerL (pyStripL item))).getLastD [])) := by
    simp [itemNameL, h]
  rw [heq]
  apply pyLowerL_eq_self
  intro c hc
  have h1 := removeQuotesL_subset _ hc
  have h2 := pyStripL_subset _ h1
  have hne := pySplitF_ne_nil asSep (pyLowerL (pyStripL item)).length
      (pyLowerL (pyStripL item))
  have h3 := getLastD_mem _ [] hne
  have h4 := pySplitF_subset asSep _ _ _ h3 h2
  exact mem_pyLowerL_fixed h4

/-! ## Shape lemmas for the rendered parts -/

theorem colRefLine_head (col : String) : (colRefLine col).data.head? = some ' ' := rfl

theorem colRefLine_comma_head (col : String) :
    (colRefLine col ++ ",").data.head? = some ' ' := rfl

theorem commentLine_head (cm cma : String) :
    (commentLine cm cma).data.head? = some ' ' := rfl

theorem mem_factLines_head :
    ∀ (l : List (String × ColumnInfo)) (s : String),
      s ∈ factLines l → s.data.head? = some ' '
  | [], _, h => absurd h (List.not_mem_nil _)
  | [(c, i)], s, h => by
    rcases List.mem_cons.mp h with h' | h'
    · rw [h']; exact colRefLine_head c
    · simp at h'
      rw [h']; exact commentLine_head i.comment ""
  | (c, i) :: y :: ys, s, h => by
    have hunf : factLines ((c, i) :: y :: ys)
        = colRefLine c :: commentLine i.comment "," :: factLines (y :: ys) := rfl
    rw [hunf] at h
    rcases List.mem_cons.mp h with h' | h'
    · rw [h']; exact colRefLine_head c
    · rcases List.mem_cons.mp h' with h'' | h''
      · rw [h'']; exact commentLine_head i.comment ","
      · exact mem_factLines_head (y :: ys) s h''

theorem mem_dimLines_head :
    ∀ (l : List (String × ColumnInfo)) (s : String),
      s ∈ dimLines l → s.data.head? = some ' '
  | [], _, h => absurd h (List.not_mem_nil _)
  | [(c, i)], s, h => by
    have hunf : dimLines [(c, i)]
        = if i.comment = "" then [colRefLine c]
          else [colRefLine c, commentLine i.comment ""] := rfl
    rw [hunf] at h
    by_cases hcm : i.comment = ""
    · rw [if_pos hcm] at h
      simp at h
      rw [h]; exact colRefLine_head c
    · rw [if_neg hcm] at h
      rcases List.mem_cons.mp h with h' | h'
      · rw [h']; exact colRefLine_head c
      · simp at h'
        rw [h']; exact commentLine_head i.comment ""
  | (c, i) :: y :: ys, s, h => by
    have hunf : dimLines ((c, i) :: y :: ys)
        = (if i.comment = "" then [colRefLine c ++ ","]
           else [colRefLine c, commentLine i.comment ","]) ++ dimLines (y :: ys) := rfl
    rw [hunf] at h
    rcases List.mem_append.mp h with h' | h'
    · by_cases hcm : i.comment = ""
      · rw [if_pos hcm] at h'
        simp at h'
        rw [h']; exact colRefLine_comma_head c
      · rw [if_neg hcm] at h'
        rcases List.mem_cons.mp h' with h'' | h''
        · rw [h'']; exact colRefLine_head c
        · simp at h''
          rw [h'']; exact commentLine_head i.comment ","
    · exact mem_dimLines_head (y :: ys) s h'

theorem mem_factLines :
    ∀ (l : List (String × ColumnInfo)) (col : String) (info : ColumnInfo),
      (col, info) ∈ l → colRefLine col ∈ factLines l
  | [], _, _, h => absurd h (List.not_mem_nil _)
  | [(c, i)], col, info, h => by
    simp at h
    rw [h.1]
    exact List.mem_cons_self _ _
  | (c, i) :: y :: ys, col, info, h => by
    have hunf : factLines ((c, i) :: y :: ys)
        = colRefLine c :: commentLine i.comment "," :: factLines (y :: ys) := rfl
    rw [hunf]
    rcases List.mem_cons.mp h with h' | h'
    · have : col = c := (Prod.mk.injEq _ _ _ _ ▸ h').1
      rw [this]
      exact List.mem_cons_self _ _
    · exact List.mem_cons_of_mem _
        (List.mem_cons_of_mem _ (mem_factLines (y :: ys) col info h'))

theorem mem_dimLines :
    ∀ (l : List (String × ColumnInfo)) (col : String) (info : ColumnInfo),
      (col, info) ∈ l →
        colRefLine col ∈ dimLines l ∨ colRefLine col ++ "," ∈ dimLines l
  | [], _, _, h => absurd h (List.not_mem_nil _)
  | [(c, i)], col, info, h => by
    simp at h
    rw [h.1]
    by_cases hcm : i.comment = ""
    · left
      have hunf : dimLines [(c, i)] = [colRefLine c] := by
        rw [show dimLines [(c, i)]
            = if i.comment = "" then [colRefLine c]
              else [colRefLine c, commentLine i.comment ""] from rfl, if_pos hcm]
      rw [hunf]
      exact List.mem_cons_self _ _
    · left
      have hunf : dimLines [(c, i)] = [colRefLine c, commentLine i.comment ""] := by
        rw [show dimLines [(c, i)]
            = if i.comment = "" then [colRefLine c]
              else [colRefLine c, commentLine i.comment ""] from rfl, if_neg hcm]
      rw [hunf]
      exact List.mem_cons_self _ _
  | (c, i) :: y :: ys, col, info, h => by
    have hunf : dimLines ((c, i) :: y :: ys)
        = (if i.comment = "" then [colRefLine c ++ ","]
           else [colRefLine c, commentLine i.comment ","]) ++ dimLines (y :: ys) := rfl
    rw [hunf]
    rcases List.mem_cons.mp h with h' | h'
    · have hcol : col = c := (Prod.mk.injEq _ _ _ _ ▸ h').1
      rw [hcol]
      by_cases hcm : i.comment = ""
      · right
        rw [if_pos hcm]
        exact List.mem_append_left _ (List.mem_cons_self _ _)
      · left
        rw [if_neg hcm]
        exact List.mem_append_left _ (List.mem_cons_self _ _)
    · rcases mem_dimLines (y :: ys) col info h' with h'' | h''
      · exact Or.inl (List.mem_append_right _ h'')
      · exact Or.inr (List.mem_append_right _ h'')

/-! ## Locating the PRIMARY KEY line -/

/-- A part is a PRIMARY KEY clause line iff it starts with the fixed
clause opener. -/
def pkHit (s : String) : Bool :=
  List.isPrefixOf "    PRIMARY KEY (".data s.data

/-- A part built from a fixed opener shorter than the clause opener, and
differing from it, is not a PRIMARY KEY line. -/
theorem not_pkHit_short (a b : String)
    (hlen : a.data.length ≤ "    PRIMARY KEY (".data.length)
    (hne : List.isPrefixOf a.data "    PRIMARY KEY (".data = false) :
    pkHit (a ++ b) = false := by
  unfold pkHit
  rw [data_append]
  cases hp : List.isPrefixOf "    PRIMARY KEY (".data (a.data ++ b.data)
  · rfl
  · exfalso
    have := isPrefixOf_of_append_long _ _ _ hp hlen
    rw [this] at hne
    simp at hne

/-- A part built from a fixed opener at least as long as the clause opener,
which the clause opener does not head, is not a PRIMARY KEY line. -/
theorem not_pkHit_long (a b : String)
    (hlen : "    PRIMARY KEY (".data.length ≤ a.data.length)
    (h : List.isPrefixOf "    PRIMARY KEY (".data a.data = false) :
    pkHit (a ++ b) = false := by
  unfold pkHit
  rw [data_append, isPrefixOf_append_left _ _ _ hlen, h]

theorem pkHit_colRefLine (col : String) : pkHit (colRefLine col) = false := by
  unfold colRefLine
  exact not_pkHit_short "  model." _ (by decide) (by decide)

theorem pkHit_colRefLine_comma (col : String) :
    pkHit (colRefLine col ++ ",") = false := by
  unfold colRefLine
  rw [String.append_assoc]
  exact not_pkHit_short "  model." _ (by decide) (by decide)

theorem pkHit_commentLine (cm cma : String) : pkHit (commentLine cm cma) = false := by
  unfold commentLine
  exact not_pkHit_short "    COMMENT = " _ (by decide) (by decide)

theorem pkHit_modelAsLine (rn : String) : pkHit (modelAsLine rn) = false := by
  unfold modelAsLine
  exact not_pkHit_long "  model AS \x7b\x7b ref(" _ (by decide) (by decide)

theorem pkHit_finalComment (mn : String) : pkHit (finalComment mn) = false := by
  unfold finalComment
  exact not_pkHit_short "COMMENT = " _ (by decide) (by decide)

theorem pkHit_pkLine (pk_str : String) : pkHit (pkLine pk_str) = true := by
  unfold pkHit pkLine
  rw [data_append]
  exact isPrefixOf_append_self _ _

theorem countP_pkHit_factLines :
    ∀ (l : List (String × ColumnInfo)), (factLines l).countP pkHit = 0
  | [] => rfl
  | [(c, i)] => by
    simp [factLines, List.countP_cons, pkHit_colRefLine, pkHit_commentLine]
  | (c, i) :: y :: ys => by
    have hunf : factLines ((c, i) :: y :: ys)
        = colRefLine c :: commentLine i.comment "," :: factLines (y :: ys) := rfl
    rw [hunf]
    simp [List.countP_cons, pkHit_colRefLine, pkHit_commentLine,
      countP_pkHit_factLines (y :: ys)]

theorem countP_pkHit_dimLines :
    ∀ (l : List (String × ColumnInfo)), (dimLines l).countP pkHit = 0
  | [] => rfl
  | [(c, i)] => by
    by_cases hcm : i.comment = ""
    · rw [show dimLines [(c, i)]
          = if i.comment = "" then [colRefLine c]
            else [colRefLine c, commentLine i.comment ""] from rfl, if_pos hcm]
      simp [List.countP_cons, pkHit_colRefLine]
    · rw [show dimLines [(c, i)]
          = if i.comment = "" then [colRefLine c]
            else [colRefLine c, commentLine i.comment ""] from rfl, if_neg hcm]
      simp [List.countP_cons, pkHit_colRefLine, pkHit_commentLine]
  | (c, i) :: y :: ys => by
    have hunf : dimLines ((c, i) :: y :: ys)
        = (if i.comment = "" then [colRefLine c ++ ","]
           else [colRefLine c, commentLine i.comment ","]) ++ dimLines (y :: ys) := rfl
    rw [hunf, List.countP_append]
    by_cases hcm : i.comment = ""
    · rw [if_pos hcm]
      simp [List.countP_cons, pkHit_colRefLine_comma,
        countP_pkHit_dimLines (y :: ys)]
    · rw [if_neg hcm]
      simp [List.countP_cons, pkHit_colRefLine, pkHit_commentLine,
        countP_pkHit_dimLines (y :: ys)]

/-- The upper-cased comma-join of a key list is empty only for `[]` and
`[""]`. -/
theorem commaJoin_upper_ne_empty (pks : List String)
    (h1 : pks ≠ []) (h2 : pks ≠ [""]) : commaJoin (pks.map pyUpperS) ≠ "" := by
  match pks with
  | [] => exact absurd rfl h1
  | [x] =>
    have hx : x ≠ "" := fun hx => h2 (by rw [hx])
    intro hcontra
    apply hx
    have : (pyUpperS x).data = [] := by
      rw [show commaJoin ([x].map pyUpperS) = pyUpperS x from rfl] at hcontra
      rw [hcontra]
    have hxd : x.data = [] := by
      have := congrArg List.length this
      simp [pyUpperS] at this
      exact List.eq_nil_of_length_eq_zero this
    cases x
    simp at hxd
    rw [hxd]
  | x :: y :: ys =>
    intro hcontra
    have : (commaJoin ((x :: y :: ys).map pyUpperS)).data.length = 0 := by
      rw [hcontra]
      rfl
    rw [show commaJoin ((x :: y :: ys).map pyUpperS)
        = pyUpperS x ++ ", " ++ commaJoin ((y :: ys).map pyUpperS) from rfl] at this
    simp [data_append] at this

/-! ## Claims -/

/-- C1 (code_bug evidence).  The claim asserts idempotence at version 1:
after a first run has produced the version-1 artifact, a second
version-resolve-and-write step with byte-identical rendered content should
write nothing and report "already up to date".  Evaluating the embedded
write step shows the opposite: the first run writes
`model_semantic_view.sql`; on the second run `get_next_version` counts
that file as version 1 and returns 2, so the step takes the
unconditional-write branch, writes `model_semantic_view_v2.sql`, changes
the directory, and never reaches the content comparison or the "already up
to date" diagnostic. -/
theorem claim_C1_second_run_writes_new_version :
    (writeStep [] "model" "artifact").written = some "model_semantic_view.sql"
  ∧ (writeStep (writeStep [] "model" "artifact").dir "model" "artifact").written
      = some "model_semantic_view_v2.sql"
  ∧ (writeStep (writeStep [] "model" "artifact").dir "model" "artifact").upToDate
      = false
  ∧ (writeStep (writeStep [] "model" "artifact").dir "model" "artifact").dir
      ≠ (writeStep [] "model" "artifact").dir := by
  refine ⟨rfl, rfl, rfl, ?_⟩
  decide

set_option maxHeartbeats 1600000 in
/-- C3.  With exactly `model_semantic_view.sql` and
`model_semantic_view_v2.sql` present, the next version is 3 and the step
writes `model_semantic_view_v3.sql` unconditionally: the file contents
`c1`, `c2` and the rendered content `r` are universally quantified, so no
content comparison can influence the outcome. -/
theorem claim_C3_version_monotonicity (c1 c2 r : String) :
    get_next_version ["model_semantic_view.sql", "model_semantic_view_v2.sql"]
        "model" = 3
  ∧ writeStep [("model_semantic_view.sql", c1), ("model_semantic_view_v2.sql", c2)]
        "model" r
      = ⟨[("model_semantic_view.sql", c1), ("model_semantic_view_v2.sql", c2),
          ("model_semantic_view_v3.sql", r)],
         some "model_semantic_view_v3.sql", false⟩ :=
  ⟨rfl, rfl⟩

/-- C4.  For the projection clause
`select a.id, a.created_at as ts, b.name from orders` the extraction
returns exactly `["id", "ts", "name"]` in that order. -/
theorem claim_C4_projection_example :
    (parse_sql_file "select a.id, a.created_at as ts, b.name from orders").1
      = ["id", "ts", "name"] := rfl

/-- C2 (counterexample).  The claim says every extracted column name is
entirely lower-case; but for the non-aliased, dot-qualified item `A.ID`
the extraction returns `"ID"`, which lower-casing changes. -/
theorem claim_C2_counterexample :
    extractColumns "SELECT A.ID FROM T" = ["ID"] ∧ pyLowerS "ID" ≠ "ID" := by
  refine ⟨rfl, ?_⟩
  decide

/-- C2 (amended).  Every extracted column name is the per-item
extraction of some comma-separated item of the captured group of the
final SELECT, and when the item contains the alias separator
(case-insensitively) the name is entirely lower-case; for a non-aliased item the
name is the after-dot segment of the item with its source casing
preserved. -/
theorem claim_C2_alias_lowercase (content col : String)
    (h : col ∈ extractColumns content) :
    ∃ sel it, (findall content).getLast? = some sel
      ∧ it ∈ pySplit ",".data sel.data
      ∧ col = String.mk (itemNameL it)
      ∧ (hasAsL it = true → pyLowerS col = col) := by
  unfold extractColumns at h
  cases hsel : (findall content).getLast? with
  | none => rw [hsel] at h; exact absurd h (List.not_mem_nil _)
  | some sel =>
    rw [hsel] at h
    unfold colsOfSelect at h
    have h1 := List.mem_filter.mp h
    obtain ⟨it, hit, hcol⟩ := List.mem_map.mp h1.1
    refine ⟨sel, it, rfl, hit, hcol.symm, fun has => ?_⟩
    rw [← hcol]
    show String.mk (pyLowerL (itemNameL it)) = String.mk (itemNameL it)
    rw [itemNameL_as_lower it has]

/-- C2 (amended) witness: for `select x as Y from t` the extraction
returns the lower-cased alias `y`. -/
theorem claim_C2_alias_lowercase_witness :
    ∃ sel it, (findall "select x as Y from t").getLast? = some sel
      ∧ it ∈ pySplit ",".data sel.data
      ∧ "y" = String.mk (itemNameL it)
      ∧ (hasAsL it = true → pyLowerS "y" = "y") :=
  claim_C2_alias_lowercase "select x as Y from t" "y" (by decide)

/-- C8.  A missing sidecar file yields the empty descriptions mapping (for
any parse result), an empty/falsy parsed document yields the empty
mapping, and a document without a top-level `models` collection yields the
empty mapping; the loader is a total function, so no failure is raised. -/
theorem claim_C8_missing_sidecar :
    (∀ config : Option YmlConfig, parse_model_yml false config = [])
  ∧ parse_model_yml true none = []
  ∧ (∀ cfg : YmlConfig, cfg.models = none → parse_model_yml true (some cfg) = []) := by
  refine ⟨fun config => rfl, rfl, fun cfg hm => ?_⟩
  simp [parse_model_yml, hm]

/-- C8 witness at a concrete document with no `models` key. -/
theorem claim_C8_missing_sidecar_witness :
    parse_model_yml true (some ⟨none⟩) = [] :=
  claim_C8_missing_sidecar.2.2 ⟨none⟩ rfl

/-- C9 (counterexample).  The claim says any matching artifact file forces
the next version to be at least 2; but `model_semantic_view_v0.sql`
matches the glob and carries extractable version 0, so the next computed
version is 1 — and hence the version-1 content-comparison path can run
with a matching artifact present. -/
theorem claim_C9_counterexample :
    matchesPattern "model" "model_semantic_view_v0.sql" = true
  ∧ get_next_version ["model_semantic_view_v0.sql"] "model" = 1 := by
  refine ⟨rfl, rfl⟩

/-- C9 (amended).  If some file matches the glob and its treated version
(`_v<N>` suffix value, or 1 for a suffix-free name) is at least 1, then
the next computed version is at least 2.  Only `_v0`-style suffixes (value
0) escape this bound. -/
theorem claim_C9_next_version_ge_two (files : List String) (base f : String)
    (hf : f ∈ files) (hm : matchesPattern base f = true)
    (hv : 1 ≤ (versionOf f).getD 1) :
    2 ≤ get_next_version files base := by
  have hmem : f ∈ files.filter (matchesPattern base) :=
    List.mem_filter.mpr ⟨hf, hm⟩
  have hne : (files.filter (matchesPattern base)).isEmpty = false := by
    cases hE : (files.filter (matchesPattern base)).isEmpty
    · rfl
    · rw [List.isEmpty_iff.mp hE] at hmem
      exact absurd hmem (List.not_mem_nil _)
  unfold get_next_version
  simp only [hne, Bool.false_eq_true, if_false]
  have hle : (versionOf f).getD 1
      ≤ ((files.filter (matchesPattern base)).map
          (fun g => (versionOf g).getD 1)).foldl max 0 :=
    mem_le_foldl_max _ 0 (List.mem_map_of_mem _ hmem)
  omega

/-- C9 (amended) witness: a suffix-free matching artifact pushes the next
version to at least 2. -/
theorem claim_C9_next_version_ge_two_witness :
    2 ≤ get_next_version ["model_semantic_view.sql"] "model" :=
  claim_C9_next_version_ge_two ["model_semantic_view.sql"] "model"
    "model_semantic_view.sql" (by decide) (by decide) (by decide)

/-- C10.  On a degenerate classification — empty or absent primary-key
list and empty or absent column mapping — the generator still returns the
artifact consisting of the config block, a TABLES block without a PRIMARY
KEY line, no FACTS and no DIMENSIONS block, and the final COMMENT line;
being a total function it raises no error. -/
theorem claim_C10_degenerate_total (mn rn : String) (cls : Classification)
    (h1 : cls.primary_keys.getD [] = []) (h2 : cls.columns.getD [] = []) :
    generate_semantic_view_sql mn cls rn
      = joinNL (configParts ++ ["TABLES (", modelAsLine rn, ")", "", finalComment mn]) := by
  unfold generate_semantic_view_sql generate_semantic_view_parts
  rw [show pkStrOf cls = "" by unfold pkStrOf; rw [h1]; rfl,
      show factsOf cls = [] by unfold factsOf; rw [h2]; rfl,
      show dimsOf cls = [] by unfold dimsOf; rw [h2]; rfl]
  simp

/-- C10 witness at the fully absent classification. -/
theorem claim_C10_degenerate_total_witness :
    generate_semantic_view_sql "orders" ⟨none, none⟩ "orders"
      = joinNL (configParts
          ++ ["TABLES (", modelAsLine "orders", ")", "", finalComment "orders"]) :=
  claim_C10_degenerate_total "orders" "orders" ⟨none, none⟩ rfl rfl

/-! ## Per-part inequalities for the section headers -/

theorem modelAsLine_ne_facts (rn : String) : modelAsLine rn ≠ "FACTS (" := by
  unfold modelAsLine
  exact append_ne_of_not_pre _ _ _ (by decide)

theorem modelAsLine_ne_dims (rn : String) : modelAsLine rn ≠ "DIMENSIONS (" := by
  unfold modelAsLine
  exact append_ne_of_not_pre _ _ _ (by decide)

theorem pkLine_ne_facts (s : String) : pkLine s ≠ "FACTS (" := by
  unfold pkLine
  exact append_ne_of_not_pre _ _ _ (by decide)

theorem pkLine_ne_dims (s : String) : pkLine s ≠ "DIMENSIONS (" := by
  unfold pkLine
  exact append_ne_of_not_pre _ _ _ (by decide)

theorem finalComment_ne_facts (mn : String) : finalComment mn ≠ "FACTS (" := by
  unfold finalComment
  exact append_ne_of_not_pre _ _ _ (by decide)

theorem finalComment_ne_dims (mn : String) : finalComment mn ≠ "DIMENSIONS (" := by
  unfold finalComment
  exact append_ne_of_not_pre _ _ _ (by decide)

theorem dimLines_ne_facts (l : List (String × ColumnInfo)) (s : String)
    (h : s ∈ dimLines l) : s ≠ "FACTS (" := by
  intro he
  have hh := mem_dimLines_head l s h
  rw [he] at hh
  exact absurd hh (by decide)

theorem factLines_ne_dims (l : List (String × ColumnInfo)) (s : String)
    (h : s ∈ factLines l) : s ≠ "DIMENSIONS (" := by
  intro he
  have hh := mem_factLines_head l s h
  rw [he] at hh
  exact absurd hh (by decide)

/-- C5.  If no column is classified FACT the artifact has no "FACTS"
header part at all; if no column is classified DIMENSION it has no
"DIMENSIONS" header part; when both classes are present the FACTS block
precedes the DIMENSIONS block. -/
theorem claim_C5_section_omission (mn rn : String) (cls : Classification) :
    (factsOf cls = [] → "FACTS (" ∉ generate_semantic_view_parts mn cls rn)
  ∧ (dimsOf cls = [] → "DIMENSIONS (" ∉ generate_semantic_view_parts mn cls rn)
  ∧ (factsOf cls ≠ [] → dimsOf cls ≠ [] →
      ∃ l1 l2 l3, generate_semantic_view_parts mn cls rn
        = l1 ++ "FACTS (" :: (l2 ++ "DIMENSIONS (" :: l3)) := by
  refine ⟨?_, ?_, ?_⟩
  · intro hf hmem
    have h1 : "FACTS (" ≠ modelAsLine rn := fun he => modelAsLine_ne_facts rn he.symm
    have h2 : ∀ s, "FACTS (" ≠ pkLine s := fun s he => pkLine_ne_facts s he.symm
    have h3 : "FACTS (" ∉ dimLines (dimsOf cls) := fun hm => dimLines_ne_facts _ _ hm rfl
    have h4 : "FACTS (" ≠ finalComment mn := fun he => finalComment_ne_facts mn he.symm
    have h5 : "FACTS (" ≠ "  materialized = " ++ sqS ++ "semantic_view" ++ sqS ++ "," := by
      decide
    by_cases hpk : pkStrOf cls = "" <;> by_cases hd : dimsOf cls = [] <;>
      simp [generate_semantic_view_parts, configParts, hf, hpk, hd, h1, h2, h3, h4, h5] at hmem
  · intro hd hmem
    have h1 : "DIMENSIONS (" ≠ modelAsLine rn := fun he => modelAsLine_ne_dims rn he.symm
    have h2 : ∀ s, "DIMENSIONS (" ≠ pkLine s := fun s he => pkLine_ne_dims s he.symm
    have h3 : "DIMENSIONS (" ∉ factLines (factsOf cls) :=
      fun hm => factLines_ne_dims _ _ hm rfl
    have h4 : "DIMENSIONS (" ≠ finalComment mn := fun he => finalComment_ne_dims mn he.symm
    have h5 : "DIMENSIONS (" ≠ "  materialized = " ++ sqS ++ "semantic_view" ++ sqS ++ "," := by
      decide
    by_cases hpk : pkStrOf cls = "" <;> by_cases hf : factsOf cls = [] <;>
      simp [generate_semantic_view_parts, configParts, hd, hpk, hf, h1, h2, h3, h4, h5] at hmem
  · intro hf hd
    refine ⟨configParts ++ ["TABLES (", modelAsLine rn]
        ++ (if pkStrOf cls = "" then [] else [pkLine (pkStrOf cls)]) ++ [")", ""],
      factLines (factsOf cls) ++ [")", ""],
      dimLines (dimsOf cls) ++ [")", finalComment mn], ?_⟩
    simp [generate_semantic_view_parts, hf, hd]

theorem countP_pkHit_config : configParts.countP pkHit = 0 := by decide

theorem pkHit_tables : pkHit "TABLES (" = false := by decide

theorem pkHit_close : pkHit ")" = false := by decide

theorem pkHit_empty : pkHit "" = false := by decide

theorem pkHit_facts_header : pkHit "FACTS (" = false := by decide

theorem pkHit_dims_header : pkHit "DIMENSIONS (" = false := by decide

/-- Exactly the PRIMARY KEY clause line of the artifact starts with the
clause opener: one part when the joined key string is nonempty, none
otherwise. -/
theorem countP_pkHit_parts (mn rn : String) (cls : Classification) :
    (generate_semantic_view_parts mn cls rn).countP pkHit
      = if pkStrOf cls = "" then 0 else 1 := by
  by_cases hpk : pkStrOf cls = "" <;> by_cases hf : factsOf cls = [] <;>
    by_cases hd : dimsOf cls = [] <;>
    simp [generate_semantic_view_parts, hpk, hf, hd, List.countP_append,
      List.countP_cons, countP_pkHit_config, pkHit_modelAsLine, pkHit_finalComment,
      pkHit_pkLine, countP_pkHit_factLines, countP_pkHit_dimLines, pkHit_tables,
      pkHit_close, pkHit_empty, pkHit_facts_header, pkHit_dims_header]

theorem pkLine_mem_parts (mn rn : String) (cls : Classification)
    (hpk : pkStrOf cls ≠ "") :
    pkLine (pkStrOf cls) ∈ generate_semantic_view_parts mn cls rn := by
  simp [generate_semantic_view_parts, hpk]

theorem factLines_mem_parts (mn rn : String) (cls : Classification) (s : String)
    (hne : factsOf cls ≠ []) (h : s ∈ factLines (factsOf cls)) :
    s ∈ generate_semantic_view_parts mn cls rn := by
  simp [generate_semantic_view_parts, hne]
  tauto

theorem dimLines_mem_parts (mn rn : String) (cls : Classification) (s : String)
    (hne : dimsOf cls ≠ []) (h : s ∈ dimLines (dimsOf cls)) :
    s ∈ generate_semantic_view_parts mn cls rn := by
  simp [generate_semantic_view_parts, hne]
  tauto

/-- C6 (amended).  An empty primary-key list — and also the singleton list
of the empty name, whose upper-cased comma-join is the empty string —
yields an artifact with no PRIMARY KEY clause line; every other list
yields exactly one such line, listing all keys upper-cased and
comma-separated. -/
theorem claim_C6_primary_key_clause (mn rn : String) (cls : Classification) :
    (cls.primary_keys.getD [] = [] →
        (generate_semantic_view_parts mn cls rn).countP pkHit = 0)
  ∧ (cls.primary_keys.getD [] ≠ [] → cls.primary_keys.getD [] ≠ [""] →
        (generate_semantic_view_parts mn cls rn).countP pkHit = 1
      ∧ pkLine (commaJoin ((cls.primary_keys.getD []).map pyUpperS))
          ∈ generate_semantic_view_parts mn cls rn) := by
  constructor
  · intro hpk
    rw [countP_pkHit_parts]
    have : pkStrOf cls = "" := by unfold pkStrOf; rw [hpk]; rfl
    rw [if_pos this]
  · intro h1 h2
    have hne : pkStrOf cls ≠ "" := commaJoin_upper_ne_empty _ h1 h2
    refine ⟨?_, pkLine_mem_parts mn rn cls hne⟩
    rw [countP_pkHit_parts, if_neg hne]

/-- C6 (counterexample).  The claim as stated promises a PRIMARY KEY line
for every non-empty key list; the singleton list `[""]` is non-empty, yet
its upper-cased comma-join is empty and the artifact carries no PRIMARY
KEY line. -/
theorem claim_C6_counterexample :
    (Classification.mk (some [""]) none).primary_keys.getD [] ≠ []
  ∧ (generate_semantic_view_parts "model" ⟨some [""], none⟩ "model").countP pkHit
      = 0 := by
  refine ⟨by decide, ?_⟩
  rw [countP_pkHit_parts]
  decide

/-- C6 witness: a singleton key list `["id"]` produces exactly one PRIMARY
KEY line listing `ID`. -/
theorem claim_C6_primary_key_clause_witness :
    (generate_semantic_view_parts "m" ⟨some ["id"], none⟩ "m").countP pkHit = 1
  ∧ pkLine (commaJoin (((Classification.mk (some ["id"]) none).primary_keys.getD []).map pyUpperS))
      ∈ generate_semantic_view_parts "m" ⟨some ["id"], none⟩ "m" :=
  (claim_C6_primary_key_clause "m" "m" ⟨some ["id"], none⟩).2 (by decide) (by decide)

/-- C5 witness: with one FACT and one DIMENSION column the FACTS header
precedes the DIMENSIONS header. -/
theorem claim_C5_section_omission_witness :
    ∃ l1 l2 l3,
      generate_semantic_view_parts "m"
          ⟨none, some [("a", ⟨"FACT", "x"⟩), ("b", ⟨"DIMENSION", "y"⟩)]⟩ "m"
        = l1 ++ "FACTS (" :: (l2 ++ "DIMENSIONS (" :: l3) :=
  (claim_C5_section_omission "m" "m"
      ⟨none, some [("a", ⟨"FACT", "x"⟩), ("b", ⟨"DIMENSION", "y"⟩)]⟩).2.2
    (by decide) (by decide)

/-- C7.  Every rendered column reference uses the upper-cased column name
(`colRefLine` renders `model.<COL> AS <COL>` through `pyUpperS`), the
PRIMARY KEY clause lists the upper-cased keys, and upper-casing is
idempotent on every such name — no lower-case ASCII letter survives in a
rendered primary-key or column reference, regardless of input casing. -/
theorem claim_C7_upper_casing (mn rn : String) (cls : Classification) :
    (∀ k ∈ cls.primary_keys.getD [], pyUpperS (pyUpperS k) = pyUpperS k)
  ∧ (pkStrOf cls ≠ "" →
      pkLine (commaJoin ((cls.primary_keys.getD []).map pyUpperS))
        ∈ generate_semantic_view_parts mn cls rn)
  ∧ (∀ col info, (col, info) ∈ factsOf cls →
      colRefLine col ∈ generate_semantic_view_parts mn cls rn
    ∧ pyUpperS (pyUpperS col) = pyUpperS col)
  ∧ (∀ col info, (col, info) ∈ dimsOf cls →
      (colRefLine col ∈ generate_semantic_view_parts mn cls rn
        ∨ colRefLine col ++ "," ∈ generate_semantic_view_parts mn cls rn)
    ∧ pyUpperS (pyUpperS col) = pyUpperS col) := by
  refine ⟨fun k _ => pyUpperS_idem k, fun hpk => pkLine_mem_parts mn rn cls hpk,
    fun col info h => ⟨?_, pyUpperS_idem col⟩,
    fun col info h => ⟨?_, pyUpperS_idem col⟩⟩
  · exact factLines_mem_parts mn rn cls _ (List.ne_nil_of_mem h)
      (mem_factLines _ _ _ h)
  · rcases mem_dimLines _ _ _ h with h' | h'
    · exact Or.inl (dimLines_mem_parts mn rn cls _ (List.ne_nil_of_mem h) h')
    · exact Or.inr (dimLines_mem_parts mn rn cls _ (List.ne_nil_of_mem h) h')

/-- C7 witness: a lower-case FACT column name `amount` is rendered as the
upper-cased reference line, and upper-casing it again changes nothing. -/
theorem claim_C7_upper_casing_witness :
    colRefLine "amount"
      ∈ generate_semantic_view_parts "m" ⟨none, some [("amount", ⟨"FACT", "t"⟩)]⟩ "m"
  ∧ pyUpperS (pyUpperS "amount") = pyUpperS "amount" :=
  (claim_C7_upper_casing "m" "m" ⟨none, some [("amount", ⟨"FACT", "t"⟩)]⟩).2.2.1
    "amount" ⟨"FACT", "t"⟩ (by decide)
